import Mathlib

/-!
Shallow embedding of `src/detect.py` (ThirdEye): the YOLO post-processing
core — box decoding (`yolo_boxes_to_corners`), confidence filtering
(`yolo_filter_boxes`), rescaling (`scale_boxes`) and non-max suppression
(`yolo_non_max_suppression`), composed by `yolo_eval`.

Tensors are modelled as lists over `ℚ`; the `(19, 19, 5)` grid is flattened
into one list of boxes, matching the flattening `tf.boolean_mask` performs in
the source.  TensorFlow primitives used by the source
(`tf.math.argmax`, `tf.math.reduce_max`, `tf.boolean_mask`, `tf.gather`,
`tf.image.non_max_suppression`) are embedded by their documented semantics.
-/

/-- A bounding box in corner format, in the coordinate order
`(y_min, x_min, y_max, x_max)` produced by `yolo_boxes_to_corners`. -/
structure Box where
  y1 : ℚ
  x1 : ℚ
  y2 : ℚ
  x2 : ℚ
deriving DecidableEq, Repr

instance : Inhabited Box := ⟨⟨0, 0, 0, 0⟩⟩

/-- The four coordinates of a box, in the order they are concatenated by
`yolo_boxes_to_corners` in the source: `y_min, x_min, y_max, x_max`. -/
def Box.toList (b : Box) : List ℚ := [b.y1, b.x1, b.y2, b.x2]

/-- `tf.math.reduce_max` along the last axis, on one row: the maximum of a
list (`0` on the empty list, which does not occur in the source: each row has
80 class scores). -/
def reduceMax : List ℚ → ℚ
  | [] => 0
  | x :: xs => xs.foldl max x

/-- `tf.math.argmax` along the last axis, on one row: the index of the first
occurrence of the maximum (ties give the smallest index). -/
def argmax : List ℚ → Nat
  | [] => 0
  | [_] => 0
  | x :: y :: ys => if reduceMax (y :: ys) ≤ x then 0 else argmax (y :: ys) + 1

/-- `tf.boolean_mask`: keep the entries whose mask bit is true.  (The source
applies it with `axis=None`, flattening the grid; here the lists are already
flat.) -/
def booleanMask {α : Type} (xs : List α) (mask : List Bool) : List α :=
  (List.zip xs mask).filterMap (fun p => if p.2 then some p.1 else none)

/-- `yolo_filter_boxes` from `src/detect.py`: form
`box_scores = box_confidence * box_class_probs`, take per-box `argmax` /
`reduce_max` over classes, build the mask `box_class_scores >= threshold`,
and apply it to scores, boxes and classes. -/
def yolo_filter_boxes (boxes : List Box) (box_confidence : List ℚ)
    (box_class_probs : List (List ℚ)) (threshold : ℚ) :
    List ℚ × List Box × List Nat :=
  let box_scores := List.zipWith (fun c ps => ps.map (fun p => c * p))
    box_confidence box_class_probs
  let box_classes := box_scores.map argmax
  let box_class_scores := box_scores.map reduceMax
  let filtering_mask := box_class_scores.map (fun s => decide (threshold ≤ s))
  (booleanMask box_class_scores filtering_mask,
   booleanMask boxes filtering_mask,
   booleanMask box_classes filtering_mask)

/-- The `i`-th row of `box_scores = box_confidence * box_class_probs` formed
inside `yolo_filter_boxes`: the per-class scores of grid cell `i`. -/
def rowScores (box_confidence : List ℚ) (box_class_probs : List (List ℚ))
    (i : Nat) : List ℚ :=
  (box_class_probs.getD i []).map (fun p => box_confidence.getD i 0 * p)

/-- Intersection-over-union of two boxes as computed inside
`tf.image.non_max_suppression` (library primitive): coordinates are
normalised with min/max, the IOU is `0` when either box has empty area, and
otherwise `intersection / (areaA + areaB - intersection)`. -/
def iou (a b : Box) : ℚ :=
  let aymin := min a.y1 a.y2
  let axmin := min a.x1 a.x2
  let aymax := max a.y1 a.y2
  let axmax := max a.x1 a.x2
  let bymin := min b.y1 b.y2
  let bxmin := min b.x1 b.x2
  let bymax := max b.y1 b.y2
  let bxmax := max b.x1 b.x2
  let areaA := (aymax - aymin) * (axmax - axmin)
  let areaB := (bymax - bymin) * (bxmax - bxmin)
  if areaA ≤ 0 ∨ areaB ≤ 0 then 0
  else
    let ih := max 0 (min aymax bymax - max aymin bymin)
    let iw := max 0 (min axmax bxmax - max axmin bxmin)
    let inter := ih * iw
    inter / (areaA + areaB - inter)

/-- Candidate order of `tf.image.non_max_suppression` (library primitive):
box indices sorted by score, highest first.  `mergeSort` is stable, so equal
scores keep index order, as in the TensorFlow kernel. -/
def nmsCandidates (scores : List ℚ) : List Nat :=
  (List.range scores.length).mergeSort
    (fun i j => decide (scores.getD j 0 ≤ scores.getD i 0))

/-- Greedy selection loop of `tf.image.non_max_suppression` (library
primitive): walk the candidates in score order, keep a candidate iff its IOU
with every previously selected box is at most the threshold, and stop once
`budget` boxes were selected. -/
def nmsSelect (get : Nat → Box) (iou_threshold : ℚ) :
    List Nat → Nat → List Nat → List Nat
  | [], _, sel => sel.reverse
  | i :: rest, b, sel =>
    if b = 0 then sel.reverse
    else if sel.all (fun j => decide (iou (get i) (get j) ≤ iou_threshold)) then
      nmsSelect get iou_threshold rest (b - 1) (i :: sel)
    else nmsSelect get iou_threshold rest b sel

/-- The index list returned by `tf.image.non_max_suppression` on
`(boxes, scores, max_boxes, iou_threshold)`. -/
def nmsIndices (scores : List ℚ) (boxes : List Box) (max_boxes : Nat)
    (iou_threshold : ℚ) : List Nat :=
  nmsSelect (fun i => boxes.getD i default) iou_threshold
    (nmsCandidates scores) max_boxes []

/-- `yolo_non_max_suppression` from `src/detect.py`: compute
`nms_indices = tf.image.non_max_suppression(boxes, scores, max_boxes,
iou_threshold)` and `tf.gather` each of scores, boxes and classes at those
indices. -/
def yolo_non_max_suppression (scores : List ℚ) (boxes : List Box)
    (classes : List Nat) (max_boxes : Nat) (iou_threshold : ℚ) :
    List ℚ × List Box × List Nat :=
  let nms_indices := nmsIndices scores boxes max_boxes iou_threshold
  (nms_indices.map (fun i => scores.getD i 0),
   nms_indices.map (fun i => boxes.getD i default),
   nms_indices.map (fun i => classes.getD i 0))

/-- `yolo_boxes_to_corners` from `src/detect.py`: `box_mins = box_xy -
box_wh/2`, `box_maxes = box_xy + box_wh/2`, concatenated in the order
`y_min, x_min, y_max, x_max`.  A center is a pair `(x, y)`, a size a pair
`(w, h)`, matching the slices `[..., 0:1]` (x) and `[..., 1:2]` (y). -/
def yolo_boxes_to_corners (box_xy box_wh : List (ℚ × ℚ)) : List Box :=
  List.zipWith
    (fun xy wh =>
      { y1 := xy.2 - wh.2 / 2, x1 := xy.1 - wh.1 / 2,
        y2 := xy.2 + wh.2 / 2, x2 := xy.1 + wh.1 / 2 })
    box_xy box_wh

/-- Modelled from the spec: `scale_boxes` is imported from
`yad2k.utils.utils`, which is not under `src/`; the spec says the surviving
boxes are rescaled to the image shape.  Each corner coordinate is multiplied
by the matching image dimension (height for y, width for x), `image_shape`
being `(height, width)`. -/
def scale_boxes (boxes : List Box) (image_shape : ℚ × ℚ) : List Box :=
  boxes.map (fun b =>
    { y1 := b.y1 * image_shape.1, x1 := b.x1 * image_shape.2,
      y2 := b.y2 * image_shape.1, x2 := b.x2 * image_shape.2 })

/-- The four tensors produced by the encoding model, as consumed by
`yolo_eval`: box centers, box sizes, per-box confidence, per-class
probabilities (grid flattened). -/
structure YoloOutputs where
  box_xy : List (ℚ × ℚ)
  box_wh : List (ℚ × ℚ)
  box_confidence : List ℚ
  box_class_probs : List (List ℚ)

/-- `yolo_eval` from `src/detect.py`: decode corners, filter (the source
passes `iou_threshold`, not `score_threshold`, as the filter threshold),
rescale to the image shape, then non-max suppression. -/
def yolo_eval (yolo_outputs : YoloOutputs) (image_shape : ℚ × ℚ)
    (max_boxes : Nat) (score_threshold iou_threshold : ℚ) :
    List ℚ × List Box × List Nat :=
  let boxes := yolo_boxes_to_corners yolo_outputs.box_xy yolo_outputs.box_wh
  let fb := yolo_filter_boxes boxes yolo_outputs.box_confidence
    yolo_outputs.box_class_probs iou_threshold
  let boxes2 := scale_boxes fb.2.1 image_shape
  yolo_non_max_suppression fb.1 boxes2 fb.2.2 max_boxes iou_threshold

/-- The collaborators `predict` uses from outside `src/` — `preprocess_image`
(yad2k), the network `yolo_model` and its head `yolo_head` (TensorFlow /
yad2k), the class-name table and the drawing utilities — abstracted as plain
functions: the spec treats them as an external collaborator supplying raw
tensors and consuming final box lists.  `image_size` is PIL's `.size`,
i.e. `(width, height)`. -/
structure Externals (Image ProcImage NetOut Colors OutImage : Type) where
  preprocess_image : Image → Image × ProcImage
  image_size : Image → ℚ × ℚ
  yolo_model : ProcImage → NetOut
  yolo_head : NetOut → YoloOutputs
  get_colors_for_classes : Nat → Colors
  class_names : List String
  draw_boxes : Image → List Box → List Nat → List String → List ℚ → OutImage

/-- `predict` from `src/detect.py`: preprocess the frame, run the network and
its head, call `yolo_eval` with image shape `[image.size[1], image.size[0]]`
(height then width, swapping PIL's `(width, height)`), `max_boxes = 10`,
`score_threshold = 0.3` and `iou_threshold = 0.5`, generate the class colors
(computed and, as in the source, not passed on), then draw the resulting
boxes on the image. -/
def predict {Image ProcImage NetOut Colors OutImage : Type}
    (ext : Externals Image ProcImage NetOut Colors OutImage)
    (numpy_image : Image) : OutImage :=
  let ip := ext.preprocess_image numpy_image
  let yolo_model_outputs := ext.yolo_model ip.2
  let yolo_outputs := ext.yolo_head yolo_model_outputs
  let res := yolo_eval yolo_outputs
    ((ext.image_size ip.1).2, (ext.image_size ip.1).1) 10 (3/10) (1/2)
  let colors := ext.get_colors_for_classes ext.class_names.length
  ext.draw_boxes ip.1 res.2.1 res.2.2 ext.class_names res.1

/-- The per-frame loop of `open_webcam` from `src/detect.py`: while the
capture is open, read a frame and run `predict` on it.  Capture and display
are cv2 I/O: the device is abstracted as the list of frames it successfully
delivers before the loop stops (a failed `cap.read` or the `q` key), and the
loop's result is the prediction computed for each captured frame in turn,
with nothing carried from one iteration to the next (the FPS overlay drawn
on the displayed frame is part of the out-of-scope display I/O). -/
def open_webcam {Image ProcImage NetOut Colors OutImage : Type}
    (ext : Externals Image ProcImage NetOut Colors OutImage)
    (captured : List Image) : List OutImage :=
  captured.map (fun input_frame => predict ext input_frame)

/-- Elementwise combination of two tensors, raising on a length (shape)
mismatch, as the underlying numeric layer does; used by the
exception-explicit variants of the pipeline. -/
def zipWithE {α β γ : Type} (f : α → β → γ) :
    List α → List β → Except String (List γ)
  | [], [] => Except.ok []
  | a :: as, b :: bs => Except.map (fun t => f a b :: t) (zipWithE f as bs)
  | [], _ :: _ => Except.error "shape mismatch"
  | _ :: _, [] => Except.error "shape mismatch"

/-- `tf.boolean_mask` raising on a mask-length (shape) mismatch. -/
def booleanMaskE {α : Type} (xs : List α) (mask : List Bool) :
    Except String (List α) :=
  Except.map (fun pairs => pairs.filterMap (fun p => if p.2 then some p.1 else none))
    (zipWithE Prod.mk xs mask)

/-- `yolo_boxes_to_corners` with the numeric layer's shape errors explicit:
the elementwise arithmetic on `box_xy` and `box_wh` raises when their shapes
mismatch.  The source has no handler, so the error is returned as is. -/
def yolo_boxes_to_cornersE (box_xy box_wh : List (ℚ × ℚ)) :
    Except String (List Box) :=
  zipWithE
    (fun xy wh =>
      { y1 := xy.2 - wh.2 / 2, x1 := xy.1 - wh.1 / 2,
        y2 := xy.2 + wh.2 / 2, x2 := xy.1 + wh.1 / 2 })
    box_xy box_wh

/-- `yolo_filter_boxes` with the numeric layer's shape errors explicit: the
broadcast product `box_confidence * box_class_probs` and each
`tf.boolean_mask` raise on shape mismatches; the source catches nothing. -/
def yolo_filter_boxesE (boxes : List Box) (box_confidence : List ℚ)
    (box_class_probs : List (List ℚ)) (threshold : ℚ) :
    Except String (List ℚ × List Box × List Nat) :=
  match zipWithE (fun c ps => ps.map (fun p => c * p))
      box_confidence box_class_probs with
  | Except.error e => Except.error e
  | Except.ok box_scores =>
    let box_classes := box_scores.map argmax
    let box_class_scores := box_scores.map reduceMax
    let filtering_mask := box_class_scores.map (fun s => decide (threshold ≤ s))
    match booleanMaskE box_class_scores filtering_mask with
    | Except.error e => Except.error e
    | Except.ok scores =>
      match booleanMaskE boxes filtering_mask with
      | Except.error e => Except.error e
      | Except.ok boxesOut =>
        match booleanMaskE box_classes filtering_mask with
        | Except.error e => Except.error e
        | Except.ok classes => Except.ok (scores, boxesOut, classes)

/-- `yolo_eval` with the numeric layer's shape errors explicit: each stage's
error is returned unchanged — the source has no `try`/`except`, no default
substitution and no partial result. -/
def yolo_evalE (yolo_outputs : YoloOutputs) (image_shape : ℚ × ℚ)
    (max_boxes : Nat) (score_threshold iou_threshold : ℚ) :
    Except String (List ℚ × List Box × List Nat) :=
  match yolo_boxes_to_cornersE yolo_outputs.box_xy yolo_outputs.box_wh with
  | Except.error e => Except.error e
  | Except.ok boxes =>
    match yolo_filter_boxesE boxes yolo_outputs.box_confidence
        yolo_outputs.box_class_probs iou_threshold with
    | Except.error e => Except.error e
    | Except.ok fb =>
      Except.ok (yolo_non_max_suppression fb.1 (scale_boxes fb.2.1 image_shape)
        fb.2.2 max_boxes iou_threshold)

/-! ### Helper lemmas: `reduceMax` and `argmax` -/

theorem foldl_max_max (l : List ℚ) :
    ∀ a b : ℚ, List.foldl max (max a b) l = max a (List.foldl max b l) := by
  induction l with
  | nil => intro a b; rfl
  | cons c l ih =>
    intro a b
    simp only [List.foldl_cons]
    rw [max_assoc]
    exact ih a (max b c)

theorem reduceMax_cons (x : ℚ) (xs : List ℚ) (h : xs ≠ []) :
    reduceMax (x :: xs) = max x (reduceMax xs) := by
  cases xs with
  | nil => exact absurd rfl h
  | cons y ys =>
    simp only [reduceMax, List.foldl_cons]
    exact foldl_max_max ys x y

theorem le_reduceMax (l : List ℚ) (x : ℚ) (hx : x ∈ l) : x ≤ reduceMax l := by
  induction l with
  | nil => cases hx
  | cons y ys ih =>
    rcases List.mem_cons.mp hx with hxy | hxys
    · subst hxy
      cases ys with
      | nil => simp [reduceMax]
      | cons z zs =>
        rw [reduceMax_cons x (z :: zs) (by simp)]
        exact le_max_left _ _
    · have hys : ys ≠ [] := by
        intro hcon
        subst hcon
        cases hxys
      rw [reduceMax_cons y ys hys]
      exact le_trans (ih hxys) (le_max_right _ _)

theorem reduceMax_mem (l : List ℚ) (h : l ≠ []) : reduceMax l ∈ l := by
  induction l with
  | nil => exact absurd rfl h
  | cons y ys ih =>
    cases ys with
    | nil => simp [reduceMax]
    | cons z zs =>
      rw [reduceMax_cons y (z :: zs) (by simp)]
      rcases max_choice y (reduceMax (z :: zs)) with h1 | h1
      · rw [h1]; exact List.mem_cons_self _ _
      · rw [h1]; exact List.mem_cons_of_mem _ (ih (by simp))

theorem argmax_lt_length (l : List ℚ) (h : l ≠ []) : argmax l < l.length := by
  induction l with
  | nil => exact absurd rfl h
  | cons x xs ih =>
    cases xs with
    | nil => simp [argmax]
    | cons y ys =>
      by_cases hc : reduceMax (y :: ys) ≤ x
      · simp [argmax, hc]
      · have := ih (by simp)
        simp only [argmax, if_neg hc, List.length_cons] at this ⊢
        omega

theorem getD_argmax (l : List ℚ) (h : l ≠ []) :
    l.getD (argmax l) 0 = reduceMax l := by
  induction l with
  | nil => exact absurd rfl h
  | cons x xs ih =>
    cases xs with
    | nil => simp [argmax, reduceMax]
    | cons y ys =>
      by_cases hc : reduceMax (y :: ys) ≤ x
      · rw [reduceMax_cons x (y :: ys) (by simp)]
        simp [argmax, hc, max_eq_left hc]
      · rw [reduceMax_cons x (y :: ys) (by simp)]
        have hlt : x ≤ reduceMax (y :: ys) := le_of_lt (lt_of_not_le hc)
        simp only [argmax, if_neg hc, List.getD_cons_succ]
        rw [ih (by simp), max_eq_right hlt]

/-! ### Helper lemmas: `booleanMask` -/

theorem booleanMask_cons {α : Type} (x : α) (xs : List α) (m : Bool)
    (ms : List Bool) :
    booleanMask (x :: xs) (m :: ms) =
      (if m then [x] else []) ++ booleanMask xs ms := by
  cases m <;> simp [booleanMask, List.filterMap_cons]

theorem booleanMask_eq_filter_range {α : Type} (d : α) (xs : List α) :
    ∀ mask : List Bool, xs.length = mask.length →
    booleanMask xs mask =
      ((List.range xs.length).filter (fun i => mask.getD i false)).map
        (fun i => xs.getD i d) := by
  induction xs with
  | nil =>
    intro mask h
    cases mask with
    | nil => rfl
    | cons m ms => simp at h
  | cons x xs ih =>
    intro mask h
    cases mask with
    | nil => simp at h
    | cons m ms =>
      have hlen : xs.length = ms.length := by simpa using h
      rw [booleanMask_cons, ih ms hlen, List.length_cons,
        List.range_succ_eq_map, List.filter_cons, List.filter_map]
      cases m with
      | false =>
        simp [Function.comp_def, Nat.succ_eq_add_one, List.getElem?_cons_succ]
      | true =>
        simp [Function.comp_def, Nat.succ_eq_add_one, List.getElem?_cons_succ]

/-! ### Helper lemmas: the greedy NMS loop -/

theorem nmsSelect_structure (get : Nat → Box) (thr : ℚ) :
    ∀ (cands : List Nat) (b : Nat) (sel : List Nat),
    ∃ t : List Nat, nmsSelect get thr cands b sel = sel.reverse ++ t ∧
      t.Sublist cands ∧ t.length ≤ b := by
  intro cands
  induction cands with
  | nil =>
    intro b sel
    exact ⟨[], by simp [nmsSelect], List.nil_sublist _, Nat.zero_le _⟩
  | cons i rest ih =>
    intro b sel
    by_cases hb : b = 0
    · refine ⟨[], ?_, List.nil_sublist _, Nat.zero_le _⟩
      rw [nmsSelect, if_pos hb]
      simp
    · by_cases hall :
          sel.all (fun j => decide (iou (get i) (get j) ≤ thr)) = true
      · obtain ⟨t, ht, hsub, hlen⟩ := ih (b - 1) (i :: sel)
        refine ⟨i :: t, ?_, List.Sublist.cons₂ i hsub, ?_⟩
        · rw [nmsSelect, if_neg hb, if_pos hall, ht]
          simp
        · simp only [List.length_cons]
          omega
      · obtain ⟨t, ht, hsub, hlen⟩ := ih b sel
        refine ⟨t, ?_, hsub.cons i, hlen⟩
        rw [nmsSelect, if_neg hb, if_neg hall, ht]

theorem nmsSelect_pairwise (get : Nat → Box) (thr : ℚ) :
    ∀ (cands : List Nat) (b : Nat) (sel : List Nat),
    List.Pairwise (fun a c => iou (get c) (get a) ≤ thr) sel.reverse →
    List.Pairwise (fun a c => iou (get c) (get a) ≤ thr)
      (nmsSelect get thr cands b sel) := by
  intro cands
  induction cands with
  | nil =>
    intro b sel h
    simpa [nmsSelect] using h
  | cons i rest ih =>
    intro b sel h
    by_cases hb : b = 0
    · rw [nmsSelect, if_pos hb]
      exact h
    · by_cases hall :
          sel.all (fun j => decide (iou (get i) (get j) ≤ thr)) = true
      · rw [nmsSelect, if_neg hb, if_pos hall]
        apply ih
        rw [List.reverse_cons, List.pairwise_append]
        refine ⟨h, List.pairwise_singleton _ _, ?_⟩
        intro a ha c hc
        have hc' := List.mem_singleton.mp hc
        subst hc'
        have ha' : a ∈ sel := List.mem_reverse.mp ha
        have := List.all_eq_true.mp hall a ha'
        simpa using this
      · rw [nmsSelect, if_neg hb, if_neg hall]
        exact ih b sel h

theorem nmsSelect_complete (get : Nat → Box) (thr : ℚ) :
    ∀ (cands : List Nat) (b : Nat) (sel : List Nat) (i : Nat),
    i ∈ cands → i ∉ nmsSelect get thr cands b sel →
    sel.length + b ≤ (nmsSelect get thr cands b sel).length ∨
      ∃ j ∈ nmsSelect get thr cands b sel, thr < iou (get i) (get j) := by
  intro cands
  induction cands with
  | nil =>
    intro b sel i hi
    cases hi
  | cons k rest ih =>
    intro b sel i hi hni
    by_cases hb : b = 0
    · subst hb
      left
      simp [nmsSelect]
    · by_cases hall :
          sel.all (fun j => decide (iou (get k) (get j) ≤ thr)) = true
      · rw [nmsSelect, if_neg hb, if_pos hall] at hni ⊢
        rcases List.mem_cons.mp hi with hik | hirest
        · subst hik
          exfalso
          apply hni
          obtain ⟨t, ht, _, _⟩ :=
            nmsSelect_structure get thr rest (b - 1) (i :: sel)
          rw [ht]
          apply List.mem_append_left
          simp
        · rcases ih (b - 1) (k :: sel) i hirest hni with hlen | hex
          · left
            simp only [List.length_cons] at hlen
            omega
          · right
            exact hex
      · rw [nmsSelect, if_neg hb, if_neg hall] at hni ⊢
        rcases List.mem_cons.mp hi with hik | hirest
        · subst hik
          right
          have hexsel : ∃ j ∈ sel, ¬ iou (get i) (get j) ≤ thr := by
            by_contra hcon
            push_neg at hcon
            apply hall
            rw [List.all_eq_true]
            intro j hj
            simpa using hcon j hj
          obtain ⟨j, hj, hjgt⟩ := hexsel
          refine ⟨j, ?_, lt_of_not_le hjgt⟩
          obtain ⟨t, ht, _, _⟩ := nmsSelect_structure get thr rest b sel
          rw [ht]
          exact List.mem_append_left _ (List.mem_reverse.mpr hj)
        · exact ih b sel i hirest hni

theorem nmsCandidates_pairwise (scores : List ℚ) :
    List.Pairwise (fun i j => scores.getD j 0 ≤ scores.getD i 0)
      (nmsCandidates scores) := by
  have h := @List.sorted_mergeSort Nat
      (fun i j => decide (scores.getD j 0 ≤ scores.getD i 0))
      (fun a b c hab hbc => by
        simp only [decide_eq_true_eq] at hab hbc ⊢
        exact le_trans hbc hab)
      (fun a b => by
        simp only [Bool.or_eq_true, decide_eq_true_eq]
        exact le_total _ _)
      (List.range scores.length)
  unfold nmsCandidates
  exact h.imp (fun hab => of_decide_eq_true hab)

theorem mem_nmsCandidates (scores : List ℚ) (i : Nat) :
    i ∈ nmsCandidates scores ↔ i < scores.length := by
  unfold nmsCandidates
  rw [List.mem_mergeSort, List.mem_range]

theorem nmsIndices_eq (scores : List ℚ) (boxes : List Box) (mb : Nat)
    (thr : ℚ) :
    ∃ t : List Nat, nmsIndices scores boxes mb thr = t ∧
      t.Sublist (nmsCandidates scores) ∧ t.length ≤ mb := by
  obtain ⟨t, ht, hsub, hlen⟩ := nmsSelect_structure
    (fun i => boxes.getD i default) thr (nmsCandidates scores) mb []
  refine ⟨t, ?_, hsub, hlen⟩
  unfold nmsIndices
  rw [ht]
  simp

theorem nmsIndices_length_le (scores : List ℚ) (boxes : List Box) (mb : Nat)
    (thr : ℚ) : (nmsIndices scores boxes mb thr).length ≤ mb := by
  obtain ⟨t, ht, _, hlen⟩ := nmsIndices_eq scores boxes mb thr
  rw [ht]
  exact hlen

theorem nmsIndices_mem_lt (scores : List ℚ) (boxes : List Box) (mb : Nat)
    (thr : ℚ) (i : Nat) (hi : i ∈ nmsIndices scores boxes mb thr) :
    i < scores.length := by
  obtain ⟨t, ht, hsub, _⟩ := nmsIndices_eq scores boxes mb thr
  rw [ht] at hi
  exact (mem_nmsCandidates scores i).mp (hsub.subset hi)

/-! ### Helper lemmas: the `box_scores` grid -/

theorem box_scores_getElem (conf : List ℚ) (probs : List (List ℚ)) (i : Nat)
    (hz : i < (List.zipWith (fun c ps => ps.map (fun p => c * p))
      conf probs).length) :
    (List.zipWith (fun c ps => ps.map (fun p => c * p)) conf probs)[i]
      = rowScores conf probs i := by
  have hi : i < probs.length :=
    lt_of_lt_of_le hz (by rw [List.length_zipWith]; exact inf_le_right)
  have hc : i < conf.length :=
    lt_of_lt_of_le hz (by rw [List.length_zipWith]; exact inf_le_left)
  rw [List.getElem_zipWith]
  unfold rowScores
  rw [List.getD_eq_getElem _ _ hi, List.getD_eq_getElem _ _ hc]

/-- C2: `yolo_filter_boxes` keeps exactly the grid-cell boxes whose maximum
over classes of `box_confidence * box_class_probs` is at least the threshold,
returning for each kept box that maximum as score and the argmax class index
as class, and discarding every box whose maximum score is below the
threshold.  `reduceMax (rowScores ...)` is the maximum of cell `i`'s class
scores (second conjunct) and `argmax (rowScores ...)` an index attaining it
(second conjunct); the first conjunct says the output is exactly the cells
passing the threshold, in grid order, with those scores and classes. -/
theorem yolo_filter_boxes_correct (boxes : List Box) (box_confidence : List ℚ)
    (box_class_probs : List (List ℚ)) (threshold : ℚ)
    (hc : box_confidence.length = box_class_probs.length)
    (hb : boxes.length = box_class_probs.length) :
    yolo_filter_boxes boxes box_confidence box_class_probs threshold =
      (((List.range box_class_probs.length).filter (fun i =>
          decide (threshold ≤
            reduceMax (rowScores box_confidence box_class_probs i)))).map
        (fun i => reduceMax (rowScores box_confidence box_class_probs i)),
       ((List.range box_class_probs.length).filter (fun i =>
          decide (threshold ≤
            reduceMax (rowScores box_confidence box_class_probs i)))).map
        (fun i => boxes.getD i default),
       ((List.range box_class_probs.length).filter (fun i =>
          decide (threshold ≤
            reduceMax (rowScores box_confidence box_class_probs i)))).map
        (fun i => argmax (rowScores box_confidence box_class_probs i))) ∧
    (∀ i, i < box_class_probs.length →
      rowScores box_confidence box_class_probs i ≠ [] →
      (reduceMax (rowScores box_confidence box_class_probs i) ∈
          rowScores box_confidence box_class_probs i ∧
        (∀ s ∈ rowScores box_confidence box_class_probs i,
          s ≤ reduceMax (rowScores box_confidence box_class_probs i)) ∧
        argmax (rowScores box_confidence box_class_probs i) <
          (rowScores box_confidence box_class_probs i).length ∧
        (rowScores box_confidence box_class_probs i).getD
            (argmax (rowScores box_confidence box_class_probs i)) 0 =
          reduceMax (rowScores box_confidence box_class_probs i))) := by
  have hZlen : (List.zipWith (fun c ps => ps.map (fun p => c * p))
      box_confidence box_class_probs).length = box_class_probs.length := by
    rw [List.length_zipWith, hc]
    exact min_self _
  have hmask : ∀ i, i < box_class_probs.length →
      (((List.zipWith (fun c ps => ps.map (fun p => c * p))
          box_confidence box_class_probs).map reduceMax).map
        (fun s => decide (threshold ≤ s))).getD i false
      = decide (threshold ≤
          reduceMax (rowScores box_confidence box_class_probs i)) := by
    intro i hi
    have h1 : i < (((List.zipWith (fun c ps => ps.map (fun p => c * p))
        box_confidence box_class_probs).map reduceMax).map
          (fun s => decide (threshold ≤ s))).length := by
      simpa [hZlen] using hi
    rw [List.getD_eq_getElem _ _ h1, List.getElem_map, List.getElem_map,
      box_scores_getElem]
  constructor
  · simp only [yolo_filter_boxes, Prod.mk.injEq]
    refine ⟨?_, ?_, ?_⟩
    · rw [booleanMask_eq_filter_range (0 : ℚ) _ _ (by simp)]
      have hrange : ((List.zipWith (fun c ps => ps.map (fun p => c * p))
          box_confidence box_class_probs).map reduceMax).length =
          box_class_probs.length := by simp [hZlen]
      rw [hrange]
      rw [List.filter_congr (fun i hi => hmask i (List.mem_range.mp hi))]
      apply List.map_congr_left
      intro i hi
      have hin : i < box_class_probs.length :=
        List.mem_range.mp (List.mem_filter.mp hi).1
      have h2 : i < ((List.zipWith (fun c ps => ps.map (fun p => c * p))
          box_confidence box_class_probs).map reduceMax).length := by
        simpa [hZlen] using hin
      rw [List.getD_eq_getElem _ _ h2, List.getElem_map, box_scores_getElem]
    · rw [booleanMask_eq_filter_range (default : Box) _ _ (by simp [hb, hZlen])]
      rw [hb]
      rw [List.filter_congr (fun i hi => hmask i (List.mem_range.mp hi))]
    · rw [booleanMask_eq_filter_range (0 : Nat) _ _ (by simp)]
      have hrange : ((List.zipWith (fun c ps => ps.map (fun p => c * p))
          box_confidence box_class_probs).map argmax).length =
          box_class_probs.length := by simp [hZlen]
      rw [hrange]
      rw [List.filter_congr (fun i hi => hmask i (List.mem_range.mp hi))]
      apply List.map_congr_left
      intro i hi
      have hin : i < box_class_probs.length :=
        List.mem_range.mp (List.mem_filter.mp hi).1
      have h2 : i < ((List.zipWith (fun c ps => ps.map (fun p => c * p))
          box_confidence box_class_probs).map argmax).length := by
        simpa [hZlen] using hin
      rw [List.getD_eq_getElem _ _ h2, List.getElem_map, box_scores_getElem]
  · intro i _ hne
    exact ⟨reduceMax_mem _ hne, fun s hs => le_reduceMax _ s hs,
      argmax_lt_length _ hne, getD_argmax _ hne⟩

/-- C2 witness: a concrete run of `yolo_filter_boxes_correct` on a two-cell
grid where one box passes the 1/2 threshold and the other does not. -/
theorem yolo_filter_boxes_correct_witness :
    ([⟨0, 0, 1, 1⟩, ⟨1, 1, 2, 2⟩] : List Box).length =
        ([[1/2, 3/4], [1/4, 1/2]] : List (List ℚ)).length ∧
      yolo_filter_boxes [⟨0, 0, 1, 1⟩, ⟨1, 1, 2, 2⟩] [1, 1/2]
          [[1/2, 3/4], [1/4, 1/2]] (1/2) =
        ([3/4], [⟨0, 0, 1, 1⟩], [1]) := by
  constructor
  · rfl
  · have h := yolo_filter_boxes_correct [⟨0, 0, 1, 1⟩, ⟨1, 1, 2, 2⟩]
      [1, 1/2] [[1/2, 3/4], [1/4, 1/2]] (1/2) (by rfl) (by rfl)
    rw [h.1]
    have h0 : rowScores [1, 1/2] [[1/2, 3/4], [1/4, 1/2]] 0 = [1/2, 3/4] := by
      unfold rowScores
      norm_num
    have h1 : rowScores [1, 1/2] [[1/2, 3/4], [1/4, 1/2]] 1 = [1/8, 1/4] := by
      unfold rowScores
      norm_num
    have hm0 : reduceMax [1/2, 3/4] = 3/4 := by
      show max (1/2 : ℚ) (3/4) = 3/4
      rw [max_eq_right]
      norm_num
    have hm1 : reduceMax [1/8, 1/4] = 1/4 := by
      show max (1/8 : ℚ) (1/4) = 1/4
      rw [max_eq_right]
      norm_num
    have ha0 : argmax [1/2, 3/4] = 1 := by
      have hcond : ¬ (reduceMax [(3 : ℚ)/4] ≤ 1/2) := by
        show ¬ ((3/4 : ℚ) ≤ 1/2)
        norm_num
      show (if reduceMax [(3 : ℚ)/4] ≤ (1/2 : ℚ) then 0
        else argmax [(3 : ℚ)/4] + 1) = 1
      rw [if_neg hcond]
      rfl
    have hrange : List.range ([[1/2, 3/4], [1/4, 1/2]] :
        List (List ℚ)).length = [0, 1] := rfl
    rw [hrange, List.filter_cons, List.filter_cons, List.filter_nil]
    norm_num [h0, h1, hm0, hm1, ha0]

/-! ### Corner decoding -/

theorem yolo_boxes_to_corners_getElem (box_xy box_wh : List (ℚ × ℚ)) (i : Nat)
    (hz : i < (yolo_boxes_to_corners box_xy box_wh).length) :
    (yolo_boxes_to_corners box_xy box_wh)[i] =
      { y1 := (box_xy.getD i (0, 0)).2 - (box_wh.getD i (0, 0)).2 / 2,
        x1 := (box_xy.getD i (0, 0)).1 - (box_wh.getD i (0, 0)).1 / 2,
        y2 := (box_xy.getD i (0, 0)).2 + (box_wh.getD i (0, 0)).2 / 2,
        x2 := (box_xy.getD i (0, 0)).1 + (box_wh.getD i (0, 0)).1 / 2 } := by
  have hx : i < box_xy.length := lt_of_lt_of_le hz
    (by unfold yolo_boxes_to_corners; rw [List.length_zipWith]; exact inf_le_left)
  have hw : i < box_wh.length := lt_of_lt_of_le hz
    (by unfold yolo_boxes_to_corners; rw [List.length_zipWith]; exact inf_le_right)
  unfold yolo_boxes_to_corners
  rw [List.getElem_zipWith, List.getD_eq_getElem _ _ hx,
    List.getD_eq_getElem _ _ hw]

/-- C5: `yolo_boxes_to_corners` returns, per input box, the corner box whose
minimum corner is center minus size/2 and maximum corner center plus size/2,
with coordinates concatenated in the order `(y_min, x_min, y_max, x_max)`;
a center is `(x, y)` and a size `(w, h)`. -/
theorem yolo_boxes_to_corners_correct (box_xy box_wh : List (ℚ × ℚ))
    (h : box_xy.length = box_wh.length) :
    (yolo_boxes_to_corners box_xy box_wh).length = box_xy.length ∧
    ∀ i, i < box_xy.length →
      ((yolo_boxes_to_corners box_xy box_wh).getD i default).toList =
        [(box_xy.getD i (0, 0)).2 - (box_wh.getD i (0, 0)).2 / 2,
         (box_xy.getD i (0, 0)).1 - (box_wh.getD i (0, 0)).1 / 2,
         (box_xy.getD i (0, 0)).2 + (box_wh.getD i (0, 0)).2 / 2,
         (box_xy.getD i (0, 0)).1 + (box_wh.getD i (0, 0)).1 / 2] := by
  have hlen : (yolo_boxes_to_corners box_xy box_wh).length = box_xy.length := by
    unfold yolo_boxes_to_corners
    rw [List.length_zipWith, h]
    exact min_self _
  refine ⟨hlen, ?_⟩
  intro i hi
  have hz : i < (yolo_boxes_to_corners box_xy box_wh).length := by
    rw [hlen]
    exact hi
  rw [List.getD_eq_getElem _ _ hz, yolo_boxes_to_corners_getElem box_xy box_wh i hz]
  rfl

/-- C5 witness: decoding the single center `(1, 2)` with size `(4, 6)` gives
the corner box `(y_min, x_min, y_max, x_max) = (-1, -1, 5, 3)`. -/
theorem yolo_boxes_to_corners_correct_witness :
    ([((1 : ℚ), (2 : ℚ))] : List (ℚ × ℚ)).length =
        ([((4 : ℚ), (6 : ℚ))] : List (ℚ × ℚ)).length ∧
      ((yolo_boxes_to_corners [(1, 2)] [(4, 6)]).getD 0 default).toList =
        [-1, -1, 5, 3] := by
  have h := yolo_boxes_to_corners_correct [(1, 2)] [(4, 6)] rfl
  refine ⟨rfl, ?_⟩
  rw [h.2 0 (by decide)]
  norm_num

/-- C1: `yolo_eval` is exactly the four-stage composition: decode centers and
sizes to corners, filter by confidence threshold (as called in the source,
with `iou_threshold`), rescale the survivors to the image shape, then apply
non-max suppression. -/
theorem yolo_eval_stage_composition (yolo_outputs : YoloOutputs)
    (image_shape : ℚ × ℚ) (max_boxes : Nat)
    (score_threshold iou_threshold : ℚ) :
    yolo_eval yolo_outputs image_shape max_boxes score_threshold
        iou_threshold =
      yolo_non_max_suppression
        (yolo_filter_boxes
          (yolo_boxes_to_corners yolo_outputs.box_xy yolo_outputs.box_wh)
          yolo_outputs.box_confidence yolo_outputs.box_class_probs
          iou_threshold).1
        (scale_boxes
          (yolo_filter_boxes
            (yolo_boxes_to_corners yolo_outputs.box_xy yolo_outputs.box_wh)
            yolo_outputs.box_confidence yolo_outputs.box_class_probs
            iou_threshold).2.1
          image_shape)
        (yolo_filter_boxes
          (yolo_boxes_to_corners yolo_outputs.box_xy yolo_outputs.box_wh)
          yolo_outputs.box_confidence yolo_outputs.box_class_probs
          iou_threshold).2.2
        max_boxes iou_threshold := rfl

/-- C9: `yolo_eval` ignores `score_threshold` — any two values give equal
outputs (in particular the 0.3 passed by `predict` has no effect), because
the filtering stage is invoked with `iou_threshold` as its threshold. -/
theorem yolo_eval_ignores_score_threshold (yolo_outputs : YoloOutputs)
    (image_shape : ℚ × ℚ) (max_boxes : Nat) (st1 st2 iou_threshold : ℚ) :
    yolo_eval yolo_outputs image_shape max_boxes st1 iou_threshold =
      yolo_eval yolo_outputs image_shape max_boxes st2 iou_threshold ∧
    yolo_eval yolo_outputs image_shape 10 (3/10) (1/2) =
      yolo_eval yolo_outputs image_shape 10 (6/10) (1/2) ∧
    (yolo_eval yolo_outputs image_shape max_boxes st1 iou_threshold).1 =
      (yolo_non_max_suppression
        (yolo_filter_boxes
          (yolo_boxes_to_corners yolo_outputs.box_xy yolo_outputs.box_wh)
          yolo_outputs.box_confidence yolo_outputs.box_class_probs
          iou_threshold).1
        (scale_boxes
          (yolo_filter_boxes
            (yolo_boxes_to_corners yolo_outputs.box_xy yolo_outputs.box_wh)
            yolo_outputs.box_confidence yolo_outputs.box_class_probs
            iou_threshold).2.1
          image_shape)
        (yolo_filter_boxes
          (yolo_boxes_to_corners yolo_outputs.box_xy yolo_outputs.box_wh)
          yolo_outputs.box_confidence yolo_outputs.box_class_probs
          iou_threshold).2.2
        max_boxes iou_threshold).1 :=
  ⟨rfl, rfl, rfl⟩

/-- C7: `yolo_eval` is deterministic (equal arguments give equal outputs) and
stateless: in the `open_webcam` loop of the source, which invokes the
transformation once per captured frame through `predict`, the output at each
position is `predict` of that frame alone — unaffected by the frames
processed before or after it — and processing a concatenation of frame
batches is the concatenation of processing each batch, so no call changes
any state observable by a later call. -/
theorem yolo_eval_deterministic_stateless
    {Image ProcImage NetOut Colors OutImage : Type}
    (ext : Externals Image ProcImage NetOut Colors OutImage)
    (o1 o2 : YoloOutputs) (s1 s2 : ℚ × ℚ) (m1 m2 : Nat) (st1 st2 it1 it2 : ℚ)
    (ho : o1 = o2) (hs : s1 = s2) (hm : m1 = m2) (hst : st1 = st2)
    (hit : it1 = it2) :
    yolo_eval o1 s1 m1 st1 it1 = yolo_eval o2 s2 m2 st2 it2 ∧
    (∀ (fs1 fs2 : List Image) (f : Image),
      (open_webcam ext (fs1 ++ f :: fs2))[fs1.length]? =
        some (predict ext f)) ∧
    (∀ fs gs : List Image,
      open_webcam ext (fs ++ gs) =
        open_webcam ext fs ++ open_webcam ext gs) := by
  subst ho hs hm hst hit
  refine ⟨rfl, ?_, ?_⟩
  · intro fs1 fs2 f
    unfold open_webcam
    rw [List.map_append, List.getElem?_append_right (by simp)]
    simp
  · intro fs gs
    unfold open_webcam
    exact List.map_append _ fs gs

/-- C7 witness: `yolo_eval_deterministic_stateless` applied at a concrete
repeated argument list, with concrete external collaborators. -/
theorem yolo_eval_deterministic_stateless_witness :
    (⟨[], [], [], []⟩ : YoloOutputs) = (⟨[], [], [], []⟩ : YoloOutputs) ∧
    yolo_eval ⟨[], [], [], []⟩ (1, 1) 5 (3/10) (1/2) =
      yolo_eval ⟨[], [], [], []⟩ (1, 1) 5 (3/10) (1/2) :=
  ⟨rfl, (yolo_eval_deterministic_stateless
    (⟨fun i => (i, i), fun _ => (1, 1), fun _ => (), fun _ => ⟨[], [], [], []⟩,
      fun _ => (), [], fun _ bs cs _ ss => (ss, bs, cs)⟩ :
      Externals Unit Unit Unit Unit (List ℚ × List Box × List Nat))
    ⟨[], [], [], []⟩ ⟨[], [], [], []⟩ (1, 1) (1, 1) 5 5 (3/10) (3/10)
    (1/2) (1/2) rfl rfl rfl rfl rfl).1⟩

/-! ### Output shape facts -/

theorem map_toList_length (l : List Box) :
    l.map (fun b => b.toList.length) = List.replicate l.length 4 := by
  induction l with
  | nil => rfl
  | cons b bs ih =>
    simp only [List.map_cons, List.length_cons, List.replicate_succ, ih]
    rfl

/-- C4: the number of detections returned by `yolo_eval` and by
`yolo_non_max_suppression` (in each of the three output components) is at
most `max_boxes`. -/
theorem detections_at_most_max_boxes (yolo_outputs : YoloOutputs)
    (image_shape : ℚ × ℚ) (max_boxes : Nat) (score_threshold iou_threshold : ℚ)
    (scores : List ℚ) (boxes : List Box) (classes : List Nat) :
    (yolo_eval yolo_outputs image_shape max_boxes score_threshold
      iou_threshold).1.length ≤ max_boxes ∧
    (yolo_eval yolo_outputs image_shape max_boxes score_threshold
      iou_threshold).2.1.length ≤ max_boxes ∧
    (yolo_eval yolo_outputs image_shape max_boxes score_threshold
      iou_threshold).2.2.length ≤ max_boxes ∧
    (yolo_non_max_suppression scores boxes classes max_boxes
      iou_threshold).1.length ≤ max_boxes ∧
    (yolo_non_max_suppression scores boxes classes max_boxes
      iou_threshold).2.1.length ≤ max_boxes ∧
    (yolo_non_max_suppression scores boxes classes max_boxes
      iou_threshold).2.2.length ≤ max_boxes := by
  refine ⟨?_, ?_, ?_, ?_, ?_, ?_⟩ <;>
    simp only [yolo_eval, yolo_non_max_suppression, List.length_map] <;>
    exact nmsIndices_length_le _ _ _ _

/-- C6: `yolo_eval` returns three parallel outputs of equal length — scores,
boxes and class indices — where every box row holds exactly 4 corner
coordinates: a variable-length list of (score, box-corners, class-index)
triples. -/
theorem yolo_eval_parallel_outputs (yolo_outputs : YoloOutputs)
    (image_shape : ℚ × ℚ) (max_boxes : Nat)
    (score_threshold iou_threshold : ℚ) :
    (yolo_eval yolo_outputs image_shape max_boxes score_threshold
      iou_threshold).1.length =
      (yolo_eval yolo_outputs image_shape max_boxes score_threshold
        iou_threshold).2.1.length ∧
    (yolo_eval yolo_outputs image_shape max_boxes score_threshold
      iou_threshold).2.1.length =
      (yolo_eval yolo_outputs image_shape max_boxes score_threshold
        iou_threshold).2.2.length ∧
    (yolo_eval yolo_outputs image_shape max_boxes score_threshold
      iou_threshold).2.1.map (fun b => b.toList.length) =
      List.replicate (yolo_eval yolo_outputs image_shape max_boxes
        score_threshold iou_threshold).2.1.length 4 := by
  refine ⟨?_, ?_, map_toList_length _⟩ <;>
    simp [yolo_eval, yolo_non_max_suppression]

/-- C10: `yolo_non_max_suppression` preserves the shape and orientation of
its inputs rather than transposing them: each output is the input gathered
at the selected indices (all of which are valid input indices), the three
outputs have equal lengths, and each output box row still holds 4
coordinates. -/
theorem yolo_non_max_suppression_layout (scores : List ℚ) (boxes : List Box)
    (classes : List Nat) (max_boxes : Nat) (iou_threshold : ℚ) :
    (yolo_non_max_suppression scores boxes classes max_boxes iou_threshold).1 =
      (nmsIndices scores boxes max_boxes iou_threshold).map
        (fun i => scores.getD i 0) ∧
    (yolo_non_max_suppression scores boxes classes max_boxes
      iou_threshold).2.1 =
      (nmsIndices scores boxes max_boxes iou_threshold).map
        (fun i => boxes.getD i default) ∧
    (yolo_non_max_suppression scores boxes classes max_boxes
      iou_threshold).2.2 =
      (nmsIndices scores boxes max_boxes iou_threshold).map
        (fun i => classes.getD i 0) ∧
    (nmsIndices scores boxes max_boxes iou_threshold).all
      (fun i => decide (i < scores.length)) = true ∧
    (yolo_non_max_suppression scores boxes classes max_boxes
      iou_threshold).1.length =
      (yolo_non_max_suppression scores boxes classes max_boxes
        iou_threshold).2.1.length ∧
    (yolo_non_max_suppression scores boxes classes max_boxes
      iou_threshold).2.1.length =
      (yolo_non_max_suppression scores boxes classes max_boxes
        iou_threshold).2.2.length ∧
    (yolo_non_max_suppression scores boxes classes max_boxes
      iou_threshold).2.1.map (fun b => b.toList.length) =
      List.replicate (yolo_non_max_suppression scores boxes classes max_boxes
        iou_threshold).2.1.length 4 := by
  refine ⟨rfl, rfl, rfl, ?_, ?_, ?_, map_toList_length _⟩
  · rw [List.all_eq_true]
    intro i hi
    exact decide_eq_true
      (nmsIndices_mem_lt scores boxes max_boxes iou_threshold i hi)
  · simp [yolo_non_max_suppression]
  · simp [yolo_non_max_suppression]

/-! ### Greedy suppression -/

theorem nmsIndices_singleton (s : ℚ) (bx : Box) (mb : Nat) (thr : ℚ)
    (hmb : mb ≠ 0) : nmsIndices [s] [bx] mb thr = [0] := by
  have hcand : nmsCandidates [s] = [0] := by
    unfold nmsCandidates
    rw [show ([s] : List ℚ).length = 1 from rfl,
      show List.range 1 = [0] from rfl, List.mergeSort_singleton]
  unfold nmsIndices
  rw [hcand, nmsSelect, if_neg hmb, if_pos (by rfl), nmsSelect]
  rfl

/-- C3: `yolo_non_max_suppression` performs greedy overlap-based suppression:
selected scores appear in descending order, every selected box has IOU at
most `iou_threshold` with each box selected before it, selection stops at
`max_boxes`, every returned (score, box, class) triple is the input triple at
one common input index, and an input index is left unselected only because
the budget was reached or it overlaps an already-selected box beyond the
threshold. -/
theorem yolo_non_max_suppression_greedy (scores : List ℚ) (boxes : List Box)
    (classes : List Nat) (max_boxes : Nat) (iou_threshold : ℚ) :
    List.Pairwise (fun a b => b ≤ a)
      (yolo_non_max_suppression scores boxes classes max_boxes
        iou_threshold).1 ∧
    List.Pairwise (fun i j =>
        iou (boxes.getD j default) (boxes.getD i default) ≤ iou_threshold)
      (nmsIndices scores boxes max_boxes iou_threshold) ∧
    (yolo_non_max_suppression scores boxes classes max_boxes
      iou_threshold).1.length ≤ max_boxes ∧
    (∀ k, k < (nmsIndices scores boxes max_boxes iou_threshold).length →
      ∃ i, i < scores.length ∧
        (yolo_non_max_suppression scores boxes classes max_boxes
          iou_threshold).1.getD k 0 = scores.getD i 0 ∧
        (yolo_non_max_suppression scores boxes classes max_boxes
          iou_threshold).2.1.getD k default = boxes.getD i default ∧
        (yolo_non_max_suppression scores boxes classes max_boxes
          iou_threshold).2.2.getD k 0 = classes.getD i 0) ∧
    (∀ i, i < scores.length →
      i ∉ nmsIndices scores boxes max_boxes iou_threshold →
      (nmsIndices scores boxes max_boxes iou_threshold).length = max_boxes ∨
        ∃ j ∈ nmsIndices scores boxes max_boxes iou_threshold,
          iou_threshold < iou (boxes.getD i default) (boxes.getD j default)) := by
  have e1 : (yolo_non_max_suppression scores boxes classes max_boxes
      iou_threshold).1 =
      (nmsIndices scores boxes max_boxes iou_threshold).map
        (fun i => scores.getD i 0) := rfl
  have e2 : (yolo_non_max_suppression scores boxes classes max_boxes
      iou_threshold).2.1 =
      (nmsIndices scores boxes max_boxes iou_threshold).map
        (fun i => boxes.getD i default) := rfl
  have e3 : (yolo_non_max_suppression scores boxes classes max_boxes
      iou_threshold).2.2 =
      (nmsIndices scores boxes max_boxes iou_threshold).map
        (fun i => classes.getD i 0) := rfl
  obtain ⟨t, ht, hsub, hlen⟩ := nmsIndices_eq scores boxes max_boxes
    iou_threshold
  have hidxpair : List.Pairwise
      (fun i j => scores.getD j 0 ≤ scores.getD i 0)
      (nmsIndices scores boxes max_boxes iou_threshold) := by
    rw [ht]
    exact List.Pairwise.sublist hsub (nmsCandidates_pairwise scores)
  refine ⟨?_, ?_, ?_, ?_, ?_⟩
  · rw [e1, List.pairwise_map]
    exact hidxpair
  · have h := nmsSelect_pairwise (fun i => boxes.getD i default) iou_threshold
      (nmsCandidates scores) max_boxes [] (by simp)
    exact h
  · rw [e1, List.length_map]
    exact nmsIndices_length_le scores boxes max_boxes iou_threshold
  · intro k hk
    have hk1 : k < ((nmsIndices scores boxes max_boxes iou_threshold).map
        (fun i => scores.getD i 0)).length := by simpa using hk
    have hk2 : k < ((nmsIndices scores boxes max_boxes iou_threshold).map
        (fun i => boxes.getD i default)).length := by simpa using hk
    have hk3 : k < ((nmsIndices scores boxes max_boxes iou_threshold).map
        (fun i => classes.getD i 0)).length := by simpa using hk
    refine ⟨(nmsIndices scores boxes max_boxes iou_threshold)[k], ?_, ?_, ?_, ?_⟩
    · exact nmsIndices_mem_lt scores boxes max_boxes iou_threshold _
        (List.getElem_mem hk)
    · rw [e1, List.getD_eq_getElem _ _ hk1, List.getElem_map]
    · rw [e2, List.getD_eq_getElem _ _ hk2, List.getElem_map]
    · rw [e3, List.getD_eq_getElem _ _ hk3, List.getElem_map]
  · intro i hi hni
    have hcand : i ∈ nmsCandidates scores := (mem_nmsCandidates scores i).mpr hi
    have h := nmsSelect_complete (fun i => boxes.getD i default) iou_threshold
      (nmsCandidates scores) max_boxes [] i hcand hni
    rcases h with hfull | hex
    · left
      have hle := nmsIndices_length_le scores boxes max_boxes iou_threshold
      simp only [List.length_nil, Nat.zero_add] at hfull
      exact le_antisymm hle hfull
    · right
      exact hex

/-- C3 witness: on a single input box the greedy suppression selects index 0,
and the returned triple is the input triple at index 0. -/
theorem yolo_non_max_suppression_greedy_witness :
    0 < (nmsIndices [5] [⟨0, 0, 2, 2⟩] 10 (1/2)).length ∧
    ∃ i, i < ([(5 : ℚ)] : List ℚ).length ∧
      (yolo_non_max_suppression [5] [⟨0, 0, 2, 2⟩] [7] 10 (1/2)).1.getD 0 0 =
        ([(5 : ℚ)] : List ℚ).getD i 0 ∧
      (yolo_non_max_suppression [5] [⟨0, 0, 2, 2⟩] [7] 10
          (1/2)).2.1.getD 0 default =
        ([⟨0, 0, 2, 2⟩] : List Box).getD i default ∧
      (yolo_non_max_suppression [5] [⟨0, 0, 2, 2⟩] [7] 10 (1/2)).2.2.getD 0 0 =
        ([7] : List Nat).getD i 0 := by
  have hidx : nmsIndices [(5 : ℚ)] [⟨0, 0, 2, 2⟩] 10 (1/2) = [0] :=
    nmsIndices_singleton 5 ⟨0, 0, 2, 2⟩ 10 (1/2) (by decide)
  constructor
  · rw [hidx]
    decide
  · exact (yolo_non_max_suppression_greedy [5] [⟨0, 0, 2, 2⟩] [7] 10
      (1/2)).2.2.2.1 0 (by rw [hidx]; decide)

/-! ### Error propagation -/

/-- C8: the core catches nothing: `yolo_evalE` returns an error exactly when
one of its stages raises one, and then returns that stage's error unchanged;
when no stage raises, it returns the full (never partial, never defaulted)
result. -/
theorem yolo_eval_propagates_errors (yolo_outputs : YoloOutputs)
    (image_shape : ℚ × ℚ) (max_boxes : Nat)
    (score_threshold iou_threshold : ℚ) (e : String) :
    (yolo_evalE yolo_outputs image_shape max_boxes score_threshold
        iou_threshold = Except.error e ↔
      yolo_boxes_to_cornersE yolo_outputs.box_xy yolo_outputs.box_wh =
          Except.error e ∨
        ∃ boxes,
          yolo_boxes_to_cornersE yolo_outputs.box_xy yolo_outputs.box_wh =
            Except.ok boxes ∧
          yolo_filter_boxesE boxes yolo_outputs.box_confidence
            yolo_outputs.box_class_probs iou_threshold = Except.error e) ∧
    ∀ boxes fb,
      yolo_boxes_to_cornersE yolo_outputs.box_xy yolo_outputs.box_wh =
        Except.ok boxes →
      yolo_filter_boxesE boxes yolo_outputs.box_confidence
        yolo_outputs.box_class_probs iou_threshold = Except.ok fb →
      yolo_evalE yolo_outputs image_shape max_boxes score_threshold
          iou_threshold =
        Except.ok (yolo_non_max_suppression fb.1
          (scale_boxes fb.2.1 image_shape) fb.2.2 max_boxes iou_threshold) := by
  constructor
  · unfold yolo_evalE
    cases hc : yolo_boxes_to_cornersE yolo_outputs.box_xy
        yolo_outputs.box_wh with
    | error e2 => simp
    | ok boxes0 =>
      cases hf : yolo_filter_boxesE boxes0 yolo_outputs.box_confidence
          yolo_outputs.box_class_probs iou_threshold with
      | error e2 => simp [hf]
      | ok fb => simp [hf]
  · intro boxes fb hcor hfil
    unfold yolo_evalE
    rw [hcor]
    dsimp only
    rw [hfil]

/-- C8 witness: a concrete shape mismatch (one box center, no box sizes)
raised in the decoding stage propagates out of `yolo_evalE` unchanged. -/
theorem yolo_eval_propagates_errors_witness :
    yolo_boxes_to_cornersE [((0 : ℚ), (0 : ℚ))] [] =
        Except.error "shape mismatch" ∧
      yolo_evalE ⟨[(0, 0)], [], [], []⟩ (1, 1) 10 (3/10) (1/2) =
        Except.error "shape mismatch" := by
  refine ⟨rfl, ?_⟩
  exact (yolo_eval_propagates_errors ⟨[(0, 0)], [], [], []⟩ (1, 1) 10 (3/10)
    (1/2) "shape mismatch").1.mpr (Or.inl rfl)
